import Mathlib

/-!
# Dots and Boxes engine and players: a shallow embedding

This file embeds the data model and operations of a Dots and Boxes
competition package: the slot/coordinate model, the game board with line
placement and capture detection, the session's turn-order rule, the game
result computation, and the bundled player scripts
(`random_player.ts`, `first_opening_player.ts`) together with the shared
utility `sampleArray` from `common.ts`.

The engine itself ships as a declarations-only file
(`lib.dotsandboxes.d.ts`); its executable body is not part of the
repository sources. Engine operations are therefore modelled from the
specification text and the declaration file's documented contracts, as
noted on each definition. The player scripts and `common.ts` are real
sources and are translated directly. JavaScript numbers produced by
`Math.random()` are modelled as exact rationals in `[0, 1)`.
-/

namespace DotsAndBoxes

/-- The five slot kinds of `Engine.SLOT_KIND`. -/
inductive SlotKind where
  | dot
  | box
  | spacer
  | initialized
  | line
deriving DecidableEq, Repr

/-- Modelled from the spec: `determineInitialSlotKind` classifies a
coordinate pair by parity alone — (even, even) is a dot, (odd, odd) is a
box, mixed parity is a spacer. -/
def determineInitialSlotKind (x y : Nat) : SlotKind :=
  if x % 2 = 0 then
    if y % 2 = 0 then SlotKind.dot else SlotKind.spacer
  else
    if y % 2 = 0 then SlotKind.spacer else SlotKind.box

/-- Modelled from the spec: `determinePlacedSlotKind` mirrors
`determineInitialSlotKind` but yields the occupied variants — (even,
even) is a dot, (odd, odd) is a captured box, mixed parity is a drawn
line. -/
def determinePlacedSlotKind (x y : Nat) : SlotKind :=
  if x % 2 = 0 then
    if y % 2 = 0 then SlotKind.dot else SlotKind.line
  else
    if y % 2 = 0 then SlotKind.line else SlotKind.initialized

/-- An `Engine.IPlayer`: identified here by its assigned initial. -/
structure IPlayer where
  playerInitial : String
deriving DecidableEq, Repr

/-- An `Engine.IPlayerTurn`: a committed move with its player and its
zero-based turn index. -/
structure IPlayerTurn where
  player : IPlayer
  turnIndex : Nat
  x : Nat
  y : Nat
deriving DecidableEq, Repr

/-- Modelled from the spec: the session's turn order is a double-ended
queue of players; `shiftTurnOrder capturesMade` pops the current player
from the head and pushes it to the back when `capturesMade == 0`, and
leaves the order untouched when the player captured at least one box
(the extra-turn rule). -/
def shiftTurnOrder (turnOrder : List IPlayer) (capturesMade : Nat) :
    List IPlayer :=
  if capturesMade = 0 then
    match turnOrder with
    | [] => []
    | p :: rest => rest ++ [p]
  else
    turnOrder

/-- Modelled from the spec: a game board owns an expanded grid of
`expandedColumns × expandedRows` cells whose kind is fixed by coordinate
parity; the mutable state is which spacers hold a line (with the binding
turn) and which boxes have been captured (with the crediting turn). -/
@[ext]
structure GameBoard where
  expandedColumns : Nat
  expandedRows : Nat
  placed : Nat → Nat → Option IPlayerTurn
  captured : Nat → Nat → Option IPlayerTurn

/-- The current kind of the grid cell at `(x, y)`: parity decides the
base kind, and a spacer or box flips to its occupied variant once a
line or capture has been recorded there. -/
def GameBoard.slotKindAt (b : GameBoard) (x y : Nat) : SlotKind :=
  match determineInitialSlotKind x y with
  | SlotKind.spacer =>
      if (b.placed x y).isSome then SlotKind.line else SlotKind.spacer
  | SlotKind.box =>
      if (b.captured x y).isSome then SlotKind.initialized else SlotKind.box
  | k => k

/-- The four cells adjacent to `(x, y)` along the spacer axes, in the
order used by the player scripts (`grid[y-1][x]`, `grid[y+1][x]`,
`grid[y][x-1]`, `grid[y][x+1]`). -/
def adjacentCoords (x y : Nat) : List (Nat × Nat) :=
  [(x, y - 1), (x, y + 1), (x - 1, y), (x + 1, y)]

/-- The turns bound to the lines currently surrounding the box at
`(x, y)`. -/
def GameBoard.surroundingTurns (b : GameBoard) (x y : Nat) :
    List IPlayerTurn :=
  (adjacentCoords x y).filterMap (fun p => b.placed p.1 p.2)

/-- Modelled from the spec: `countSurroundingLines` requires a box-like
coordinate (else the call fails with `InvalidQuery`, carrying the
coordinates) and returns how many of the four adjacent cells hold a
line. -/
def GameBoard.countSurroundingLines (b : GameBoard) (x y : Nat) :
    Except (Nat × Nat) Nat :=
  if determineInitialSlotKind x y = SlotKind.box then
    Except.ok (b.surroundingTurns x y).length
  else
    Except.error (x, y)

/-- The surrounding turn with the greatest `turnIndex`, when any line
has been drawn (later duplicates of an index would lose the tie; real
turn indices are distinct). -/
def priorityTurn : List IPlayerTurn → Option IPlayerTurn
  | [] => none
  | t :: ts =>
      match priorityTurn ts with
      | none => some t
      | some u => if t.turnIndex ≥ u.turnIndex then some t else some u

/-- Modelled from the spec: `determinePriorityPlayerTurn` requires a
box-like coordinate (else `InvalidQuery`); it returns the turn that
placed the most recent of the four surrounding lines, or `none` when
fewer than four sides are drawn. -/
def GameBoard.determinePriorityPlayerTurn (b : GameBoard) (x y : Nat) :
    Except (Nat × Nat) (Option IPlayerTurn) :=
  if determineInitialSlotKind x y = SlotKind.box then
    let ts := b.surroundingTurns x y
    Except.ok (if ts.length = 4 then priorityTurn ts else none)
  else
    Except.error (x, y)

/-- The grid updated with a line at the turn's coordinates (the
successful branch of `placeLine`). -/
def GameBoard.withLine (b : GameBoard) (t : IPlayerTurn) : GameBoard :=
  { b with
    placed := fun x y =>
      if x = t.x && y = t.y then some t else b.placed x y }

/-- Modelled from the spec: `placeLine` requires that the slot at the
turn's coordinates currently be an empty spacer; otherwise it fails with
`InvalidPlacement` carrying the offending turn and performs no mutation.
On success the spacer becomes a line bound to the turn. -/
def GameBoard.placeLine (b : GameBoard) (t : IPlayerTurn) :
    Except IPlayerTurn GameBoard :=
  if b.slotKindAt t.x t.y = SlotKind.spacer then
    Except.ok (b.withLine t)
  else
    Except.error t

/-- The box coordinates of the expanded grid in row-major order: the
odd rows, and within each row the odd columns (the strided traversal of
`walkBoxes`). -/
def GameBoard.boxCoords (b : GameBoard) : List (Nat × Nat) :=
  ((List.range b.expandedRows).filter (fun y => y % 2 = 1)).flatMap
    (fun y =>
      ((List.range b.expandedColumns).filter (fun x => x % 2 = 1)).map
        (fun x => (x, y)))

/-- The spacer coordinates of the expanded grid in row-major order. -/
def GameBoard.spacerCoords (b : GameBoard) : List (Nat × Nat) :=
  (List.range b.expandedRows).flatMap
    (fun y =>
      (List.range b.expandedColumns).filterMap
        (fun x =>
          if determineInitialSlotKind x y = SlotKind.spacer then
            some (x, y)
          else
            none))

/-- Whether the box at `q` is an uncaptured box all four of whose sides
are drawn — the condition under which `applyCaptures` converts it. -/
def GameBoard.capturableAt (b : GameBoard) (q : Nat × Nat) : Bool :=
  b.slotKindAt q.1 q.2 == SlotKind.box &&
    (b.surroundingTurns q.1 q.2).length == 4

/-- The boxes the next `applyCaptures` sweep will convert. -/
def GameBoard.newlyCapturedBoxes (b : GameBoard) : List (Nat × Nat) :=
  b.boxCoords.filter b.capturableAt

/-- Modelled from the spec: `applyCaptures` scans every uncaptured box
in one atomic sweep, converts each box with four surrounding lines to a
captured box bound to the priority turn of its own four sides, and
returns how many boxes this call captured. -/
def GameBoard.applyCaptures (b : GameBoard) : Nat × GameBoard :=
  let newly := b.newlyCapturedBoxes
  (newly.length,
    { b with
      captured := fun x y =>
        if (x, y) ∈ newly then priorityTurn (b.surroundingTurns x y)
        else b.captured x y })

/-- Derived counter: how many spacers currently hold a line. -/
def GameBoard.spacersClaimed (b : GameBoard) : Nat :=
  (b.spacerCoords.filter
    (fun p => b.slotKindAt p.1 p.2 == SlotKind.line)).length

/-- Derived counter: how many boxes are currently captured. -/
def GameBoard.boxesClaimed (b : GameBoard) : Nat :=
  (b.boxCoords.filter
    (fun p => b.slotKindAt p.1 p.2 == SlotKind.initialized)).length

/-- The three win classifications of `Engine.WIN_KIND`. -/
inductive WinKind where
  | no_contest
  | singular
  | multiple
deriving DecidableEq, Repr

/-- An `Engine.IGameResult`: the score map together with the derived
highest score, win kind and winning player set. The `ReadonlyMap` of
scores is modelled as an association list with pairwise-distinct
players. -/
structure IGameResult where
  scores : List (IPlayer × Nat)
  highestScore : Nat
  winKind : WinKind
  winningPlayers : List IPlayer
deriving Repr

/-- Modelled from the spec: `makeGameResult` derives the highest score
(0 when no boxes were captured), collects every player achieving it,
and classifies the win as no-contest when the highest score is 0,
singular when exactly one player achieves it, and multiple otherwise. -/
def makeGameResult (scores : List (IPlayer × Nat)) : IGameResult :=
  let highestScore := (scores.map Prod.snd).foldr max 0
  let winningPlayers :=
    (scores.filter (fun e => e.2 == highestScore)).map Prod.fst
  { scores := scores
    highestScore := highestScore
    winKind :=
      if highestScore = 0 then WinKind.no_contest
      else if winningPlayers.length = 1 then WinKind.singular
      else WinKind.multiple
    winningPlayers := winningPlayers }

/-- A grid slot as seen by the player scripts: its coordinates and its
current kind. -/
structure IGameBoardSlot where
  x : Nat
  y : Nat
  slotKind : SlotKind
deriving DecidableEq, Repr

/-- The slot view of the cell at `(x, y)`. -/
def GameBoard.slotViewAt (b : GameBoard) (x y : Nat) : IGameBoardSlot :=
  ⟨x, y, b.slotKindAt x y⟩

/-- Modelled from the spec: `walkSpacers` yields every spacer-like slot
(empty spacer or drawn line) of the grid in row-major strided order. -/
def GameBoard.walkSpacers (b : GameBoard) : List IGameBoardSlot :=
  b.spacerCoords.map (fun p => b.slotViewAt p.1 p.2)

/-- `sampleArray` from `common.ts`: picks the element at index
`Math.trunc(Math.random() * array.length)`, or `null` for an empty
array. The random draw is the parameter `r`, an exact rational in
`[0, 1)` standing for the IEEE double returned by `Math.random()`. -/
def sampleArray {T : Type} (array : List T) (r : ℚ) : Option T :=
  let elementIndex := (⌊r * (array.length : ℚ)⌋).toNat
  array.get? elementIndex

/-- The move computation of `random_player.ts`: collect every slot of
`walkSpacers` still of spacer kind, sample one at random, and return
its coordinates, or `null` when none remain. -/
def randomPlayerMove (b : GameBoard) (r : ℚ) : Option (Nat × Nat) :=
  match sampleArray
      (b.walkSpacers.filter (fun s => s.slotKind == SlotKind.spacer)) r with
  | some s => some (s.x, s.y)
  | none => none

/-- The move computation of `first_opening_player.ts`: return the
coordinates of the first slot of `walkSpacers` still of spacer kind,
or `null` when none remain. -/
def firstOpeningPlayerMove (b : GameBoard) : Option (Nat × Nat) :=
  match (b.walkSpacers.filter
      (fun s => s.slotKind == SlotKind.spacer)).head? with
  | some s => some (s.x, s.y)
  | none => none

/-- A turn of the demonstration player at the given index and
coordinates. -/
def demoTurn (i x y : Nat) : IPlayerTurn :=
  ⟨⟨"A"⟩, i, x, y⟩

/-- A placement table built from a finite association list. -/
def placedOfList (l : List ((Nat × Nat) × IPlayerTurn)) :
    Nat → Nat → Option IPlayerTurn :=
  fun x y => (l.find? (fun e => e.1 = (x, y))).map Prod.snd

/-- A concrete 5 × 3 expanded grid (a 3 × 2 dot board with two boxes)
where every spacer but the shared edge `(2, 1)` already holds a line.
Placing that edge completes both boxes at `(1, 1)` and `(3, 1)` at
once. -/
def demoBoard : GameBoard :=
  { expandedColumns := 5
    expandedRows := 3
    placed := placedOfList
      [((1, 0), demoTurn 0 1 0), ((1, 2), demoTurn 1 1 2),
       ((0, 1), demoTurn 2 0 1), ((3, 0), demoTurn 3 3 0),
       ((3, 2), demoTurn 4 3 2), ((4, 1), demoTurn 5 4 1)]
    captured := fun _ _ => none }

/-- The double-completing turn for `demoBoard`: a line on the shared
edge `(2, 1)`. -/
def demoDoubleTurn : IPlayerTurn := demoTurn 6 2 1

/-- `demoBoard` after the shared edge has been drawn: both boxes now
have all four sides. -/
def demoFullBoard : GameBoard := demoBoard.withLine demoDoubleTurn

/-! ## Supporting lemmas -/

theorem determineInitialSlotKind_eq_dot_iff (x y : Nat) :
    determineInitialSlotKind x y = SlotKind.dot ↔ x % 2 = 0 ∧ y % 2 = 0 := by
  rcases Nat.mod_two_eq_zero_or_one x with hx | hx <;>
    rcases Nat.mod_two_eq_zero_or_one y with hy | hy <;>
      simp [determineInitialSlotKind, hx, hy]

theorem determineInitialSlotKind_eq_box_iff (x y : Nat) :
    determineInitialSlotKind x y = SlotKind.box ↔ x % 2 = 1 ∧ y % 2 = 1 := by
  rcases Nat.mod_two_eq_zero_or_one x with hx | hx <;>
    rcases Nat.mod_two_eq_zero_or_one y with hy | hy <;>
      simp [determineInitialSlotKind, hx, hy]

theorem determineInitialSlotKind_eq_spacer_iff (x y : Nat) :
    determineInitialSlotKind x y = SlotKind.spacer ↔ x % 2 ≠ y % 2 := by
  rcases Nat.mod_two_eq_zero_or_one x with hx | hx <;>
    rcases Nat.mod_two_eq_zero_or_one y with hy | hy <;>
      simp [determineInitialSlotKind, hx, hy]

theorem slotKindAt_eq_spacer_iff (b : GameBoard) (x y : Nat) :
    b.slotKindAt x y = SlotKind.spacer ↔
      determineInitialSlotKind x y = SlotKind.spacer ∧ b.placed x y = none := by
  rcases h : determineInitialSlotKind x y <;>
    rcases hp : b.placed x y <;>
      rcases hc : b.captured x y <;>
        simp [GameBoard.slotKindAt, h, hp, hc]

theorem slotKindAt_eq_box_iff (b : GameBoard) (x y : Nat) :
    b.slotKindAt x y = SlotKind.box ↔
      determineInitialSlotKind x y = SlotKind.box ∧ b.captured x y = none := by
  rcases h : determineInitialSlotKind x y <;>
    rcases hp : b.placed x y <;>
      rcases hc : b.captured x y <;>
        simp [GameBoard.slotKindAt, h, hp, hc]

theorem withLine_captured (b : GameBoard) (t : IPlayerTurn) :
    (b.withLine t).captured = b.captured := rfl

theorem withLine_boxCoords (b : GameBoard) (t : IPlayerTurn) :
    (b.withLine t).boxCoords = b.boxCoords := rfl

theorem applyCaptures_placed (b : GameBoard) :
    ((b.applyCaptures).2).placed = b.placed := rfl

theorem applyCaptures_boxCoords (b : GameBoard) :
    ((b.applyCaptures).2).boxCoords = b.boxCoords := rfl

theorem applyCaptures_surroundingTurns (b : GameBoard) (x y : Nat) :
    ((b.applyCaptures).2).surroundingTurns x y = b.surroundingTurns x y := rfl

theorem slotKindAt_withLine_box_parity (b : GameBoard) (t : IPlayerTurn)
    (x y : Nat) (h : determineInitialSlotKind x y = SlotKind.box) :
    (b.withLine t).slotKindAt x y = b.slotKindAt x y := by
  simp [GameBoard.slotKindAt, GameBoard.withLine, h]

theorem surroundingTurns_withLine_of_not_adjacent (b : GameBoard)
    (t : IPlayerTurn) (x y : Nat)
    (h : (t.x, t.y) ∉ adjacentCoords x y) :
    (b.withLine t).surroundingTurns x y = b.surroundingTurns x y := by
  unfold GameBoard.surroundingTurns
  apply List.filterMap_congr
  intro p hp
  have hne : ¬(p.1 = t.x ∧ p.2 = t.y) := by
    rintro ⟨h1, h2⟩
    apply h
    rcases p with ⟨px, py⟩
    simp only at h1 h2
    rw [← h1, ← h2]
    exact hp
  show (if p.1 = t.x && p.2 = t.y then some t else b.placed p.1 p.2)
      = b.placed p.1 p.2
  split
  · rename_i hcond
    simp only [Bool.and_eq_true, decide_eq_true_eq] at hcond
    exact absurd hcond hne
  · rfl

theorem capturableAt_congr (b b2 : GameBoard) (q : Nat × Nat)
    (hpar : determineInitialSlotKind q.1 q.2 = SlotKind.box)
    (hcap : b2.captured q.1 q.2 = b.captured q.1 q.2)
    (hsur : b2.surroundingTurns q.1 q.2 = b.surroundingTurns q.1 q.2) :
    b2.capturableAt q = b.capturableAt q := by
  unfold GameBoard.capturableAt GameBoard.slotKindAt
  rw [hpar, hcap, hsur]

theorem priorityTurn_eq_none_iff (ts : List IPlayerTurn) :
    priorityTurn ts = none ↔ ts = [] := by
  cases ts with
  | nil => simp [priorityTurn]
  | cons t ts =>
      simp only [priorityTurn]
      rcases h : priorityTurn ts with _ | u <;> simp
      split <;> simp

theorem priorityTurn_isSome_of_ne_nil (ts : List IPlayerTurn)
    (h : ts ≠ []) : ∃ u, priorityTurn ts = some u := by
  rcases hp : priorityTurn ts with _ | u
  · exact absurd ((priorityTurn_eq_none_iff ts).mp hp) h
  · exact ⟨u, rfl⟩

theorem priorityTurn_mem_and_max :
    ∀ (ts : List IPlayerTurn) (t : IPlayerTurn), priorityTurn ts = some t →
      t ∈ ts ∧ ∀ u ∈ ts, u.turnIndex ≤ t.turnIndex := by
  intro ts
  induction ts with
  | nil => intro t h; simp [priorityTurn] at h
  | cons a ts ih =>
      intro t h
      rcases hp : priorityTurn ts with _ | u
      · have hts : ts = [] := (priorityTurn_eq_none_iff ts).mp hp
        subst hts
        simp only [priorityTurn] at h
        cases h
        simp
      · simp only [priorityTurn, hp] at h
        obtain ⟨hu, hmax⟩ := ih u hp
        split at h
        · rename_i hge
          cases h
          refine ⟨List.mem_cons_self _ _, ?_⟩
          intro v hv
          rcases List.mem_cons.mp hv with hv | hv
          · subst hv; exact le_refl _
          · exact le_trans (hmax v hv) hge
        · rename_i hlt
          cases h
          refine ⟨List.mem_cons_of_mem _ hu, ?_⟩
          intro v hv
          rcases List.mem_cons.mp hv with hv | hv
          · subst hv; omega
          · exact hmax v hv

theorem mem_boxCoords_iff (b : GameBoard) (q : Nat × Nat) :
    q ∈ b.boxCoords ↔
      q.1 % 2 = 1 ∧ q.2 % 2 = 1 ∧
        q.1 < b.expandedColumns ∧ q.2 < b.expandedRows := by
  rcases q with ⟨qx, qy⟩
  simp only [GameBoard.boxCoords, List.mem_flatMap, List.mem_map,
    List.mem_filter, List.mem_range, decide_eq_true_eq, Prod.mk.injEq]
  constructor
  · rintro ⟨y, ⟨hy, hy2⟩, x, ⟨hx, hx2⟩, hqx, hqy⟩
    subst hqx; subst hqy
    exact ⟨hx2, hy2, hx, hy⟩
  · rintro ⟨h1, h2, h3, h4⟩
    exact ⟨qy, ⟨h4, h2⟩, qx, ⟨h3, h1⟩, rfl, rfl⟩

theorem boxCoords_nodup (b : GameBoard) : b.boxCoords.Nodup := by
  unfold GameBoard.boxCoords
  rw [List.nodup_flatMap]
  constructor
  · intro y _
    apply List.Nodup.map
    · intro a a2 hab
      simpa using hab
    · exact (List.nodup_range _).filter _
  · apply List.Pairwise.imp ?_ ((List.nodup_range _).filter _)
    intro y y2 hne a ha ha2
    simp only [Function.onFun, List.mem_map] at ha ha2
    obtain ⟨x, _, hx⟩ := ha
    obtain ⟨x2, _, hx2⟩ := ha2
    apply hne
    have : (x, y) = (x2, y2) := hx.trans hx2.symm
    exact (Prod.mk.injEq _ _ _ _ ▸ this).2

theorem mem_spacerCoords_iff (b : GameBoard) (q : Nat × Nat) :
    q ∈ b.spacerCoords ↔
      determineInitialSlotKind q.1 q.2 = SlotKind.spacer ∧
        q.1 < b.expandedColumns ∧ q.2 < b.expandedRows := by
  rcases q with ⟨qx, qy⟩
  simp only [GameBoard.spacerCoords, List.mem_flatMap, List.mem_filterMap,
    List.mem_range]
  constructor
  · rintro ⟨y, hy, x, hx, hxy⟩
    split at hxy
    · rename_i hkind
      cases hxy
      exact ⟨hkind, hx, hy⟩
    · cases hxy
  · rintro ⟨h1, h2, h3⟩
    exact ⟨qy, h3, qx, h2, by simp [h1]⟩

theorem adjacent_box_pin (ex ey qx qy : Nat)
    (hqx : qx % 2 = 1) (hqy : qy % 2 = 1)
    (hadj : (ex, ey) ∈ adjacentCoords qx qy) :
    (qx = ex ∧ (qy = ey + 1 ∨ qy + 1 = ey)) ∨
    (qy = ey ∧ (qx = ex + 1 ∨ qx + 1 = ex)) := by
  simp only [adjacentCoords, List.mem_cons, List.not_mem_nil, or_false,
    Prod.mk.injEq] at hadj
  omega

theorem adjacent_box_two (ex ey : Nat)
    (p1 p2 q : Nat × Nat)
    (h1 : p1.1 % 2 = 1) (h2 : p1.2 % 2 = 1)
    (h3 : p2.1 % 2 = 1) (h4 : p2.2 % 2 = 1)
    (h5 : q.1 % 2 = 1) (h6 : q.2 % 2 = 1)
    (hne : p1 ≠ p2)
    (ha1 : (ex, ey) ∈ adjacentCoords p1.1 p1.2)
    (ha2 : (ex, ey) ∈ adjacentCoords p2.1 p2.2)
    (haq : (ex, ey) ∈ adjacentCoords q.1 q.2) :
    q = p1 ∨ q = p2 := by
  have k1 := adjacent_box_pin ex ey p1.1 p1.2 h1 h2 ha1
  have k2 := adjacent_box_pin ex ey p2.1 p2.2 h3 h4 ha2
  have kq := adjacent_box_pin ex ey q.1 q.2 h5 h6 haq
  rcases p1 with ⟨ax, ay⟩
  rcases p2 with ⟨bx, bz⟩
  rcases q with ⟨cx, cy⟩
  simp only [Prod.mk.injEq, ne_eq] at *
  omega

theorem countP_pair_eq {α : Type} [DecidableEq α] (l : List α) (a b : α)
    (hab : a ≠ b) :
    l.countP (fun q => decide (q = a) || decide (q = b)) =
      l.count a + l.count b := by
  induction l with
  | nil => simp
  | cons x l ih =>
      simp only [List.countP_cons, List.count_cons, ih]
      by_cases hxa : x = a <;> by_cases hxb : x = b
      · exact absurd (hxa.symm.trans hxb) hab
      all_goals simp [hxa, hxb, hab, Ne.symm hab] <;> omega

theorem countP_pair_le {α : Type} [DecidableEq α] (l : List α) (a b : α) :
    l.countP (fun q => decide (q = a) || decide (q = b)) ≤
      l.count a + l.count b := by
  induction l with
  | nil => simp
  | cons x l ih =>
      simp only [List.countP_cons, List.count_cons]
      by_cases hxa : x = a <;> by_cases hxb : x = b <;>
        simp [hxa, hxb] <;> omega

theorem not_capturable_of_saturated (b : GameBoard)
    (hsat : b.newlyCapturedBoxes = []) (q : Nat × Nat)
    (hq : q ∈ b.boxCoords) : b.capturableAt q = false := by
  have h := List.filter_eq_nil_iff.mp hsat q hq
  simpa using h

theorem le_foldr_max (l : List Nat) (v : Nat) (h : v ∈ l) :
    v ≤ l.foldr max 0 := by
  induction l with
  | nil => simp at h
  | cons x l ih =>
      rcases List.mem_cons.mp h with h | h
      · subst h
        exact le_max_left _ _
      · exact le_trans (ih h) (le_max_right _ _)

theorem foldr_max_mem (l : List Nat) :
    l.foldr max 0 = 0 ∨ l.foldr max 0 ∈ l := by
  induction l with
  | nil => left; rfl
  | cons x l ih =>
      show max x (l.foldr max 0) = 0 ∨ max x (l.foldr max 0) ∈ x :: l
      rcases le_or_lt x (l.foldr max 0) with hle | hlt
      · rw [max_eq_right hle]
        rcases ih with h | h
        · left; exact h
        · right; exact List.mem_cons_of_mem _ h
      · rw [max_eq_left (le_of_lt hlt)]
        right; exact List.mem_cons_self _ _

theorem sampleArray_lt_length {T : Type} (a : List T) (r : ℚ)
    (h0 : 0 ≤ r) (h1 : r < 1) (hne : a ≠ []) :
    (⌊r * (a.length : ℚ)⌋).toNat < a.length := by
  have hlen : 0 < a.length := List.length_pos.mpr hne
  have h2 : ⌊r * (a.length : ℚ)⌋ < (a.length : ℤ) := by
    rw [Int.floor_lt]
    push_cast
    calc r * (a.length : ℚ) < 1 * (a.length : ℚ) := by
          apply mul_lt_mul_of_pos_right h1
          exact_mod_cast hlen
      _ = (a.length : ℚ) := one_mul _
  omega

theorem sampleArray_eq_none_iff {T : Type} (a : List T) (r : ℚ)
    (h0 : 0 ≤ r) (h1 : r < 1) :
    sampleArray a r = none ↔ a = [] := by
  constructor
  · intro h
    by_contra hne
    have hlt := sampleArray_lt_length a r h0 h1 hne
    unfold sampleArray at h
    rw [List.get?_eq_getElem?, List.getElem?_eq_none_iff] at h
    omega
  · intro h
    subst h
    rfl

theorem sampleArray_mem {T : Type} (a : List T) (r : ℚ) (v : T)
    (h : sampleArray a r = some v) : v ∈ a := by
  unfold sampleArray at h
  rw [List.get?_eq_getElem?, List.getElem?_eq_some_iff] at h
  obtain ⟨hlt, hv⟩ := h
  exact hv ▸ List.getElem_mem hlt

/-! ## Claim theorems -/

/-- C6: for every coordinate pair, the unplaced classification is `dot`
iff both coordinates are even, `box` iff both are odd, and `spacer`
iff exactly one is odd; the placed classification agrees with it except
that it returns the captured-box kind in place of `box` and `line` in
place of `spacer`. Both classifications are pure functions of the
coordinates alone — neither takes any board state. -/
theorem claim_c6_slot_kind_classification (x y : Nat) :
    (determineInitialSlotKind x y = SlotKind.dot ↔
      x % 2 = 0 ∧ y % 2 = 0) ∧
    (determineInitialSlotKind x y = SlotKind.box ↔
      x % 2 = 1 ∧ y % 2 = 1) ∧
    (determineInitialSlotKind x y = SlotKind.spacer ↔
      x % 2 ≠ y % 2) ∧
    determinePlacedSlotKind x y =
      (match determineInitialSlotKind x y with
       | SlotKind.box => SlotKind.initialized
       | SlotKind.spacer => SlotKind.line
       | k => k) := by
  refine ⟨determineInitialSlotKind_eq_dot_iff x y,
    determineInitialSlotKind_eq_box_iff x y,
    determineInitialSlotKind_eq_spacer_iff x y, ?_⟩
  rcases Nat.mod_two_eq_zero_or_one x with hx | hx <;>
    rcases Nat.mod_two_eq_zero_or_one y with hy | hy <;>
      simp [determineInitialSlotKind, determinePlacedSlotKind, hx, hy]

/-- C2: on a non-empty rotation, `shiftTurnOrder 0` moves the head
player to the tail (so the next player is promoted to the head), while
`shiftTurnOrder n` for `n > 0` leaves the rotation unchanged. -/
theorem claim_c2_shift_turn_order (p : IPlayer) (rest : List IPlayer)
    (n : Nat) (hn : 0 < n) :
    shiftTurnOrder (p :: rest) 0 = rest ++ [p] ∧
    shiftTurnOrder (p :: rest) n = p :: rest := by
  constructor
  · simp [shiftTurnOrder]
  · simp [shiftTurnOrder, Nat.pos_iff_ne_zero.mp hn]

/-- Witness for C2 at a concrete two-player rotation and `n = 1`. -/
theorem claim_c2_witness :
    0 < 1 ∧
    (shiftTurnOrder [⟨"A"⟩, ⟨"B"⟩] 0 = [⟨"B"⟩, ⟨"A"⟩] ∧
     shiftTurnOrder [⟨"A"⟩, ⟨"B"⟩] 1 = [⟨"A"⟩, ⟨"B"⟩]) :=
  ⟨by decide, claim_c2_shift_turn_order ⟨"A"⟩ [⟨"B"⟩] 1 (by decide)⟩

/-- C3: `placeLine` on any slot that is not currently an empty spacer
fails with `InvalidPlacement` carrying the offending turn and never
returns a successful board (the failing branch performs no mutation:
it produces only the error value); in particular a cell already holding
a line always fails. Conversely a success is possible only from an
empty spacer. -/
theorem claim_c3_place_line_invalid (b : GameBoard) (t : IPlayerTurn) :
    (b.slotKindAt t.x t.y ≠ SlotKind.spacer →
      b.placeLine t = Except.error t) ∧
    (b.slotKindAt t.x t.y = SlotKind.line →
      b.placeLine t = Except.error t) ∧
    (∀ b2, b.placeLine t = Except.ok b2 →
      b.slotKindAt t.x t.y = SlotKind.spacer ∧ b2 = b.withLine t) := by
  refine ⟨?_, ?_, ?_⟩
  · intro h
    simp [GameBoard.placeLine, h]
  · intro h
    simp [GameBoard.placeLine, h]
  · intro b2 h
    unfold GameBoard.placeLine at h
    split at h
    · rename_i hs
      cases h
      exact ⟨hs, rfl⟩
    · cases h

/-- Witness for C3 at a cell of `demoBoard` that already holds a
line. -/
theorem claim_c3_witness :
    demoBoard.slotKindAt 1 0 ≠ SlotKind.spacer ∧
    demoBoard.placeLine (demoTurn 9 1 0) =
      Except.error (demoTurn 9 1 0) :=
  ⟨by decide,
   (claim_c3_place_line_invalid demoBoard (demoTurn 9 1 0)).1 (by decide)⟩

/-- C4: at a box-like coordinate, `determinePriorityPlayerTurn` returns
`none` whenever fewer than four of the box's sides are drawn, and when
all four sides are drawn it returns a turn that is bound to one of the
surrounding line slots and whose `turnIndex` is greatest among them. -/
theorem claim_c4_priority_player_turn (b : GameBoard) (x y : Nat)
    (hbox : determineInitialSlotKind x y = SlotKind.box) :
    ((b.surroundingTurns x y).length < 4 →
      b.determinePriorityPlayerTurn x y = Except.ok none) ∧
    ((b.surroundingTurns x y).length = 4 →
      ∃ t, b.determinePriorityPlayerTurn x y = Except.ok (some t) ∧
        t ∈ b.surroundingTurns x y ∧
        ∀ u ∈ b.surroundingTurns x y, u.turnIndex ≤ t.turnIndex) := by
  constructor
  · intro hlt
    simp [GameBoard.determinePriorityPlayerTurn, hbox, Nat.ne_of_lt hlt]
  · intro h4
    have hne : b.surroundingTurns x y ≠ [] := by
      intro hnil
      rw [hnil] at h4
      simp at h4
    obtain ⟨u, hu⟩ := priorityTurn_isSome_of_ne_nil _ hne
    obtain ⟨hmem, hmax⟩ := priorityTurn_mem_and_max _ u hu
    refine ⟨u, ?_, hmem, hmax⟩
    simp [GameBoard.determinePriorityPlayerTurn, hbox, h4, hu]

/-- Witness for C4 on `demoFullBoard`, whose box at `(1, 1)` has all
four sides drawn; the priority turn exists, lies among the four
surrounding line turns and has the greatest index. -/
theorem claim_c4_witness :
    ∃ t, demoFullBoard.determinePriorityPlayerTurn 1 1 =
        Except.ok (some t) ∧
      t ∈ demoFullBoard.surroundingTurns 1 1 ∧
      ∀ u ∈ demoFullBoard.surroundingTurns 1 1,
        u.turnIndex ≤ t.turnIndex :=
  (claim_c4_priority_player_turn demoFullBoard 1 1 (by decide)).2
    (by decide)

/-- C5: with no intervening placement, a second `applyCaptures` call
returns 0 and leaves the board exactly as the first call left it. -/
theorem claim_c5_apply_captures_idempotent (b : GameBoard) :
    ((b.applyCaptures).2).applyCaptures = (0, (b.applyCaptures).2) := by
  set b1 := (b.applyCaptures).2 with hb1
  have hnil : b1.newlyCapturedBoxes = [] := by
    apply List.filter_eq_nil_iff.mpr
    intro q hq
    have hq0 : q ∈ b.boxCoords := by
      rw [hb1, applyCaptures_boxCoords] at hq
      exact hq
    obtain ⟨hqx, hqy, _, _⟩ := (mem_boxCoords_iff b q).mp hq0
    have hpar : determineInitialSlotKind q.1 q.2 = SlotKind.box :=
      (determineInitialSlotKind_eq_box_iff q.1 q.2).mpr ⟨hqx, hqy⟩
    by_cases hc : b.capturableAt q = true
    · have hmem : q ∈ b.newlyCapturedBoxes := List.mem_filter.mpr ⟨hq0, hc⟩
      have h4 : (b.surroundingTurns q.1 q.2).length = 4 := by
        have hc2 := hc
        unfold GameBoard.capturableAt at hc2
        simp only [Bool.and_eq_true, beq_iff_eq] at hc2
        exact hc2.2
      have hcap1 : b1.captured q.1 q.2 =
          priorityTurn (b.surroundingTurns q.1 q.2) := by
        rw [hb1]
        show (if (q.1, q.2) ∈ b.newlyCapturedBoxes then
            priorityTurn (b.surroundingTurns q.1 q.2)
          else b.captured q.1 q.2) =
          priorityTurn (b.surroundingTurns q.1 q.2)
        rw [if_pos hmem]
      obtain ⟨u, hu⟩ := priorityTurn_isSome_of_ne_nil
        (b.surroundingTurns q.1 q.2)
        (by intro hnil2; rw [hnil2] at h4; simp at h4)
      have hslot : b1.slotKindAt q.1 q.2 = SlotKind.initialized := by
        simp [GameBoard.slotKindAt, hpar, hcap1, hu]
      unfold GameBoard.capturableAt
      rw [hslot]
      simp
    · have hnotmem : q ∉ b.newlyCapturedBoxes := by
        intro hmem
        exact hc (List.mem_filter.mp hmem).2
      have hcapsame : b1.captured q.1 q.2 = b.captured q.1 q.2 := by
        rw [hb1]
        show (if (q.1, q.2) ∈ b.newlyCapturedBoxes then
            priorityTurn (b.surroundingTurns q.1 q.2)
          else b.captured q.1 q.2) = b.captured q.1 q.2
        rw [if_neg hnotmem]
      rw [capturableAt_congr b b1 q hpar hcapsame
        (by rw [hb1]; exact applyCaptures_surroundingTurns b q.1 q.2)]
      simpa using hc
  show GameBoard.applyCaptures b1 = (0, b1)
  unfold GameBoard.applyCaptures
  rw [hnil]
  simp only [List.length_nil, List.not_mem_nil, if_false]

/-- C7: for a score map (an association list with pairwise-distinct
players), `makeGameResult` sets `highestScore` to the maximum tally
value (0 when no boxes were captured), `winningPlayers` to exactly the
players whose tally equals `highestScore` (without duplicates), and
`winKind` to no-contest exactly when `highestScore` is 0, singular
exactly when the highest score is positive and exactly one player
attains it, and multiple in the remaining cases. -/
theorem claim_c7_make_game_result (scores : List (IPlayer × Nat))
    (hnd : (scores.map Prod.fst).Nodup) :
    (∀ e ∈ scores, e.2 ≤ (makeGameResult scores).highestScore) ∧
    ((makeGameResult scores).highestScore = 0 ∨
      ∃ e ∈ scores, e.2 = (makeGameResult scores).highestScore) ∧
    (∀ p, p ∈ (makeGameResult scores).winningPlayers ↔
      ∃ v, (p, v) ∈ scores ∧ v = (makeGameResult scores).highestScore) ∧
    (makeGameResult scores).winningPlayers.Nodup ∧
    ((makeGameResult scores).winKind = WinKind.no_contest ↔
      (makeGameResult scores).highestScore = 0) ∧
    ((makeGameResult scores).winKind = WinKind.singular ↔
      (makeGameResult scores).highestScore ≠ 0 ∧
        (makeGameResult scores).winningPlayers.length = 1) ∧
    ((makeGameResult scores).winKind = WinKind.multiple ↔
      (makeGameResult scores).highestScore ≠ 0 ∧
        (makeGameResult scores).winningPlayers.length ≠ 1) := by
  have hhs : (makeGameResult scores).highestScore =
      (scores.map Prod.snd).foldr max 0 := rfl
  have hwp : (makeGameResult scores).winningPlayers =
      (scores.filter
        (fun e => e.2 == (scores.map Prod.snd).foldr max 0)).map
        Prod.fst := rfl
  have hwk : (makeGameResult scores).winKind =
      (if (scores.map Prod.snd).foldr max 0 = 0 then WinKind.no_contest
       else if ((scores.filter
           (fun e => e.2 == (scores.map Prod.snd).foldr max 0)).map
           Prod.fst).length = 1 then WinKind.singular
       else WinKind.multiple) := rfl
  refine ⟨?_, ?_, ?_, ?_, ?_, ?_, ?_⟩
  · intro e he
    rw [hhs]
    exact le_foldr_max _ _ (List.mem_map_of_mem Prod.snd he)
  · rw [hhs]
    rcases foldr_max_mem (scores.map Prod.snd) with h | h
    · left; exact h
    · right
      obtain ⟨e, he, hv⟩ := List.mem_map.mp h
      exact ⟨e, he, hv⟩
  · intro p
    rw [hwp, hhs]
    simp only [List.mem_map, List.mem_filter, beq_iff_eq]
    constructor
    · rintro ⟨e, ⟨he, hv⟩, hp⟩
      exact ⟨e.2, by rw [← hp]; exact he, hv⟩
    · rintro ⟨v, hv, hveq⟩
      exact ⟨(p, v), ⟨hv, hveq⟩, rfl⟩
  · rw [hwp]
    exact List.Nodup.sublist
      (List.Sublist.map Prod.fst (List.filter_sublist scores)) hnd
  · rw [hwk, hhs]
    split_ifs <;> simp_all
  · rw [hwk, hhs, hwp]
    split_ifs <;> simp_all
  · rw [hwk, hhs, hwp]
    split_ifs <;> simp_all

/-- Witness for C7 at the spec's scenario tally A = 3, B = 1: a
singular win. -/
theorem claim_c7_witness :
    (makeGameResult [(⟨"A"⟩, 3), (⟨"B"⟩, 1)]).winKind =
      WinKind.singular :=
  ((claim_c7_make_game_result [(⟨"A"⟩, 3), (⟨"B"⟩, 1)]
      (by decide)).2.2.2.2.2.1).mpr (by decide)

/-- C10: for any array and any random draw `r` with `0 ≤ r < 1`,
`sampleArray` returns `null` exactly when the array is empty, and
otherwise returns the element at index `trunc(r * length)`, which is a
valid in-bounds element of the array. -/
theorem claim_c10_sample_array {T : Type} (a : List T) (r : ℚ)
    (h0 : 0 ≤ r) (h1 : r < 1) :
    (sampleArray a r = none ↔ a = []) ∧
    (a ≠ [] →
      (⌊r * (a.length : ℚ)⌋).toNat < a.length ∧
      sampleArray a r = a.get? (⌊r * (a.length : ℚ)⌋).toNat ∧
      ∃ v, sampleArray a r = some v ∧ v ∈ a) := by
  refine ⟨sampleArray_eq_none_iff a r h0 h1, ?_⟩
  intro hne
  have hlt := sampleArray_lt_length a r h0 h1 hne
  refine ⟨hlt, rfl, ?_⟩
  rcases hs : sampleArray a r with _ | v
  · exact absurd ((sampleArray_eq_none_iff a r h0 h1).mp hs) hne
  · exact ⟨v, rfl, sampleArray_mem a r v hs⟩

/-- Witness for C10 at the array `[10, 20, 30]` and the draw `r = 0`. -/
theorem claim_c10_witness :
    ∃ v, sampleArray [10, 20, 30] (0 : ℚ) = some v ∧
      v ∈ [10, 20, 30] :=
  ((claim_c10_sample_array [10, 20, 30] 0 (by norm_num)
      (by norm_num)).2 (by decide)).2.2

/-- C9: for any board and any random draw in `[0, 1)`, the move of
`random_player.ts` and the move of `first_opening_player.ts` are `null`
exactly when no in-bounds cell of the board is currently of spacer
kind, and any returned move addresses an in-bounds slot whose kind is
`spacer` at the moment of computation (and is spacer-like by parity),
so the engine's spacer validation accepts it. -/
theorem claim_c9_player_moves (b : GameBoard) (r : ℚ)
    (h0 : 0 ≤ r) (h1 : r < 1) :
    (randomPlayerMove b r = none ↔
      ∀ x y, x < b.expandedColumns → y < b.expandedRows →
        b.slotKindAt x y ≠ SlotKind.spacer) ∧
    (∀ x y, randomPlayerMove b r = some (x, y) →
      b.slotKindAt x y = SlotKind.spacer ∧
      determineInitialSlotKind x y = SlotKind.spacer ∧
      x < b.expandedColumns ∧ y < b.expandedRows) ∧
    (firstOpeningPlayerMove b = none ↔
      ∀ x y, x < b.expandedColumns → y < b.expandedRows →
        b.slotKindAt x y ≠ SlotKind.spacer) ∧
    (∀ x y, firstOpeningPlayerMove b = some (x, y) →
      b.slotKindAt x y = SlotKind.spacer ∧
      determineInitialSlotKind x y = SlotKind.spacer ∧
      x < b.expandedColumns ∧ y < b.expandedRows) := by
  have havailmem : ∀ s ∈ b.walkSpacers.filter
      (fun s => s.slotKind == SlotKind.spacer),
      b.slotKindAt s.x s.y = SlotKind.spacer ∧
      determineInitialSlotKind s.x s.y = SlotKind.spacer ∧
      s.x < b.expandedColumns ∧ s.y < b.expandedRows := by
    intro s hs
    obtain ⟨hsw, hsk⟩ := List.mem_filter.mp hs
    obtain ⟨p, hp, hview⟩ := List.mem_map.mp hsw
    obtain ⟨hkind, hxlt, hylt⟩ := (mem_spacerCoords_iff b p).mp hp
    subst hview
    simp only [GameBoard.slotViewAt, beq_iff_eq] at hsk ⊢
    exact ⟨hsk, hkind, hxlt, hylt⟩
  have hempty : (b.walkSpacers.filter
      (fun s => s.slotKind == SlotKind.spacer)) = [] ↔
      (∀ x y, x < b.expandedColumns → y < b.expandedRows →
        b.slotKindAt x y ≠ SlotKind.spacer) := by
    rw [List.filter_eq_nil_iff]
    constructor
    · intro h x y hx hy hk
      have hpar := ((slotKindAt_eq_spacer_iff b x y).mp hk).1
      have hmem : (x, y) ∈ b.spacerCoords :=
        (mem_spacerCoords_iff b (x, y)).mpr ⟨hpar, hx, hy⟩
      have hv : b.slotViewAt x y ∈ b.walkSpacers :=
        List.mem_map_of_mem _ hmem
      have := h _ hv
      simp [GameBoard.slotViewAt, hk] at this
    · intro h s hs
      obtain ⟨p, hp, hview⟩ := List.mem_map.mp hs
      obtain ⟨hkind, hxlt, hylt⟩ := (mem_spacerCoords_iff b p).mp hp
      subst hview
      simp only [GameBoard.slotViewAt, beq_iff_eq]
      exact h p.1 p.2 hxlt hylt
  refine ⟨?_, ?_, ?_, ?_⟩
  · unfold randomPlayerMove
    rcases hs : sampleArray
        (b.walkSpacers.filter (fun s => s.slotKind == SlotKind.spacer)) r
      with _ | s
    · rw [hs]
      exact iff_of_true rfl
        (hempty.mp ((sampleArray_eq_none_iff _ r h0 h1).mp hs))
    · rw [hs]
      have hmem := sampleArray_mem _ _ _ hs
      obtain ⟨hk, hpar, hx, hy⟩ := havailmem s hmem
      apply iff_of_false
      · simp
      · intro hr
        exact hr s.x s.y hx hy hk
  · intro x y h
    unfold randomPlayerMove at h
    rcases hs : sampleArray
        (b.walkSpacers.filter (fun s => s.slotKind == SlotKind.spacer)) r
      with _ | s
    · rw [hs] at h; cases h
    · rw [hs] at h
      obtain ⟨hx, hy⟩ : s.x = x ∧ s.y = y := by
        simpa [Prod.ext_iff] using h
      subst hx; subst hy
      exact havailmem s (sampleArray_mem _ _ _ hs)
  · unfold firstOpeningPlayerMove
    rcases hs : (b.walkSpacers.filter
        (fun s => s.slotKind == SlotKind.spacer)).head? with _ | s
    · rw [hs]
      exact iff_of_true rfl (hempty.mp (List.head?_eq_none_iff.mp hs))
    · rw [hs]
      have hmem : s ∈ b.walkSpacers.filter
          (fun s => s.slotKind == SlotKind.spacer) := by
        obtain ⟨ys, hys⟩ := List.head?_eq_some_iff.mp hs
        rw [hys]
        exact List.mem_cons_self _ _
      obtain ⟨hk, hpar, hx, hy⟩ := havailmem s hmem
      apply iff_of_false
      · simp
      · intro hr
        exact hr s.x s.y hx hy hk
  · intro x y h
    unfold firstOpeningPlayerMove at h
    rcases hs : (b.walkSpacers.filter
        (fun s => s.slotKind == SlotKind.spacer)).head? with _ | s
    · rw [hs] at h; cases h
    · rw [hs] at h
      obtain ⟨hx, hy⟩ : s.x = x ∧ s.y = y := by
        simpa [Prod.ext_iff] using h
      subst hx; subst hy
      have hmem : s ∈ b.walkSpacers.filter
          (fun s => s.slotKind == SlotKind.spacer) := by
        obtain ⟨ys, hys⟩ := List.head?_eq_some_iff.mp hs
        rw [hys]
        exact List.mem_cons_self _ _
      exact havailmem s hmem

/-- Witness for C9 on `demoBoard`, whose only open spacer is the shared
edge `(2, 1)`: both players pick it (the random player under the draw
`r = 0`). -/
theorem claim_c9_witness :
    demoBoard.slotKindAt 2 1 = SlotKind.spacer ∧
    determineInitialSlotKind 2 1 = SlotKind.spacer ∧
    2 < demoBoard.expandedColumns ∧ 1 < demoBoard.expandedRows :=
  (claim_c9_player_moves demoBoard 0 (by norm_num) (by norm_num)).2.1
    2 1 (by simp [randomPlayerMove, sampleArray]; rfl)

/-- C1: from any capture-saturated board (the state the engine is in
when `applyCaptures` is called right after each placement), a single
successful `placeLine` whose edge is shared by two distinct uncaptured
boxes and raises both boxes' surrounding-line counts to 4 makes the
next `applyCaptures` return exactly 2, converts both boxes to captured
in that one call, and binds each box to the turn with the greatest
`turnIndex` among its own four surrounding line slots; moreover no
single placement ever leads the next sweep to capture more than two
boxes. -/
theorem claim_c1_double_capture (b : GameBoard) (t : IPlayerTurn)
    (p1 p2 : Nat × Nat)
    (hsat : b.newlyCapturedBoxes = [])
    (hok : b.slotKindAt t.x t.y = SlotKind.spacer)
    (hp1 : p1 ∈ b.boxCoords) (hp2 : p2 ∈ b.boxCoords) (hne : p1 ≠ p2)
    (hadj1 : (t.x, t.y) ∈ adjacentCoords p1.1 p1.2)
    (hadj2 : (t.x, t.y) ∈ adjacentCoords p2.1 p2.2)
    (hbox1 : b.slotKindAt p1.1 p1.2 = SlotKind.box)
    (hbox2 : b.slotKindAt p2.1 p2.2 = SlotKind.box)
    (hc1 : ((b.withLine t).surroundingTurns p1.1 p1.2).length = 4)
    (hc2 : ((b.withLine t).surroundingTurns p2.1 p2.2).length = 4) :
    b.placeLine t = Except.ok (b.withLine t) ∧
    ((b.withLine t).applyCaptures).1 = 2 ∧
    (∀ p, p = p1 ∨ p = p2 →
      ((b.withLine t).applyCaptures).2.slotKindAt p.1 p.2 =
        SlotKind.initialized ∧
      ∃ u, ((b.withLine t).applyCaptures).2.captured p.1 p.2 = some u ∧
        u ∈ (b.withLine t).surroundingTurns p.1 p.2 ∧
        ∀ v ∈ (b.withLine t).surroundingTurns p.1 p.2,
          v.turnIndex ≤ u.turnIndex) ∧
    (∀ (b2 : GameBoard) (t2 : IPlayerTurn),
      b2.newlyCapturedBoxes = [] →
      b2.slotKindAt t2.x t2.y = SlotKind.spacer →
      ((b2.withLine t2).applyCaptures).1 ≤ 2) := by
  obtain ⟨h1x, h1y, _, _⟩ := (mem_boxCoords_iff b p1).mp hp1
  obtain ⟨h2x, h2y, _, _⟩ := (mem_boxCoords_iff b p2).mp hp2
  have hpar1 : determineInitialSlotKind p1.1 p1.2 = SlotKind.box :=
    (determineInitialSlotKind_eq_box_iff p1.1 p1.2).mpr ⟨h1x, h1y⟩
  have hpar2 : determineInitialSlotKind p2.1 p2.2 = SlotKind.box :=
    (determineInitialSlotKind_eq_box_iff p2.1 p2.2).mpr ⟨h2x, h2y⟩
  have hcap1 : (b.withLine t).capturableAt p1 = true := by
    unfold GameBoard.capturableAt
    rw [slotKindAt_withLine_box_parity b t p1.1 p1.2 hpar1, hbox1, hc1]
    simp
  have hcap2 : (b.withLine t).capturableAt p2 = true := by
    unfold GameBoard.capturableAt
    rw [slotKindAt_withLine_box_parity b t p2.1 p2.2 hpar2, hbox2, hc2]
    simp
  have hchar : ∀ q ∈ b.boxCoords,
      (b.withLine t).capturableAt q =
        (decide (q = p1) || decide (q = p2)) := by
    intro q hq
    obtain ⟨hqx, hqy, _, _⟩ := (mem_boxCoords_iff b q).mp hq
    have hqpar : determineInitialSlotKind q.1 q.2 = SlotKind.box :=
      (determineInitialSlotKind_eq_box_iff q.1 q.2).mpr ⟨hqx, hqy⟩
    by_cases hadj : (t.x, t.y) ∈ adjacentCoords q.1 q.2
    · rcases adjacent_box_two t.x t.y p1 p2 q h1x h1y h2x h2y hqx hqy
        hne hadj1 hadj2 hadj with h | h
      · subst h
        rw [hcap1]
        simp
      · subst h
        rw [hcap2]
        simp
    · have hsame : (b.withLine t).capturableAt q = b.capturableAt q :=
        capturableAt_congr b (b.withLine t) q hqpar rfl
          (surroundingTurns_withLine_of_not_adjacent b t q.1 q.2 hadj)
      rw [hsame, not_capturable_of_saturated b hsat q hq]
      have hq1 : q ≠ p1 := by
        intro he
        apply hadj
        rw [he]
        exact hadj1
      have hq2 : q ≠ p2 := by
        intro he
        apply hadj
        rw [he]
        exact hadj2
      simp [hq1, hq2]
  have hnewly : (b.withLine t).newlyCapturedBoxes =
      b.boxCoords.filter
        (fun q => decide (q = p1) || decide (q = p2)) := by
    unfold GameBoard.newlyCapturedBoxes
    rw [withLine_boxCoords]
    exact List.filter_congr hchar
  have hcount : ((b.withLine t).applyCaptures).1 = 2 := by
    show ((b.withLine t).newlyCapturedBoxes).length = 2
    rw [hnewly, ← List.countP_eq_length_filter, countP_pair_eq _ _ _ hne,
      List.count_eq_one_of_mem (boxCoords_nodup b) hp1,
      List.count_eq_one_of_mem (boxCoords_nodup b) hp2]
  have hmem1 : p1 ∈ (b.withLine t).newlyCapturedBoxes := by
    rw [hnewly]
    exact List.mem_filter.mpr ⟨hp1, by simp⟩
  have hmem2 : p2 ∈ (b.withLine t).newlyCapturedBoxes := by
    rw [hnewly]
    exact List.mem_filter.mpr ⟨hp2, by simp⟩
  have hmain : ∀ p, p = p1 ∨ p = p2 →
      ((b.withLine t).applyCaptures).2.slotKindAt p.1 p.2 =
        SlotKind.initialized ∧
      ∃ u, ((b.withLine t).applyCaptures).2.captured p.1 p.2 = some u ∧
        u ∈ (b.withLine t).surroundingTurns p.1 p.2 ∧
        ∀ v ∈ (b.withLine t).surroundingTurns p.1 p.2,
          v.turnIndex ≤ u.turnIndex := by
    intro p hp
    have hmemp : p ∈ (b.withLine t).newlyCapturedBoxes := by
      rcases hp with h | h
      · rw [h]; exact hmem1
      · rw [h]; exact hmem2
    have hparp : determineInitialSlotKind p.1 p.2 = SlotKind.box := by
      rcases hp with h | h
      · rw [h]; exact hpar1
      · rw [h]; exact hpar2
    have hcp : ((b.withLine t).surroundingTurns p.1 p.2).length = 4 := by
      rcases hp with h | h
      · rw [h]; exact hc1
      · rw [h]; exact hc2
    have hcapP : ((b.withLine t).applyCaptures).2.captured p.1 p.2 =
        priorityTurn ((b.withLine t).surroundingTurns p.1 p.2) := by
      show (if (p.1, p.2) ∈ (b.withLine t).newlyCapturedBoxes then
          priorityTurn ((b.withLine t).surroundingTurns p.1 p.2)
        else (b.withLine t).captured p.1 p.2) =
        priorityTurn ((b.withLine t).surroundingTurns p.1 p.2)
      rw [if_pos hmemp]
    obtain ⟨u, hu⟩ := priorityTurn_isSome_of_ne_nil
      ((b.withLine t).surroundingTurns p.1 p.2)
      (by intro hnil; rw [hnil] at hcp; simp at hcp)
    obtain ⟨humem, humax⟩ := priorityTurn_mem_and_max _ u hu
    refine ⟨?_, u, by rw [hcapP, hu], humem, humax⟩
    simp [GameBoard.slotKindAt, hparp, hcapP, hu]
  have hbound : ∀ (b2 : GameBoard) (t2 : IPlayerTurn),
      b2.newlyCapturedBoxes = [] →
      b2.slotKindAt t2.x t2.y = SlotKind.spacer →
      ((b2.withLine t2).applyCaptures).1 ≤ 2 := by
    intro b2 t2 hsat2 hok2
    have hparE : determineInitialSlotKind t2.x t2.y = SlotKind.spacer :=
      ((slotKindAt_eq_spacer_iff b2 t2.x t2.y).mp hok2).1
    have hparneq : t2.x % 2 ≠ t2.y % 2 :=
      (determineInitialSlotKind_eq_spacer_iff t2.x t2.y).mp hparE
    have hcov : ∀ q ∈ b2.boxCoords,
        (b2.withLine t2).capturableAt q = true →
        (t2.x, t2.y) ∈ adjacentCoords q.1 q.2 := by
      intro q hq hcapq
      obtain ⟨hqx, hqy, _, _⟩ := (mem_boxCoords_iff b2 q).mp hq
      have hqpar : determineInitialSlotKind q.1 q.2 = SlotKind.box :=
        (determineInitialSlotKind_eq_box_iff q.1 q.2).mpr ⟨hqx, hqy⟩
      by_contra hadj
      rw [capturableAt_congr b2 (b2.withLine t2) q hqpar rfl
          (surroundingTurns_withLine_of_not_adjacent b2 t2 q.1 q.2 hadj),
        not_capturable_of_saturated b2 hsat2 q hq] at hcapq
      cases hcapq
    have haux : ∀ cA cB : Nat × Nat, cA ≠ cB →
        (∀ q ∈ b2.boxCoords, (b2.withLine t2).capturableAt q = true →
          q = cA ∨ q = cB) →
        ((b2.withLine t2).applyCaptures).1 ≤ 2 := by
      intro cA cB hAB hcov2
      show ((b2.withLine t2).newlyCapturedBoxes).length ≤ 2
      unfold GameBoard.newlyCapturedBoxes
      rw [withLine_boxCoords, ← List.countP_eq_length_filter]
      have step1 : List.countP ((b2.withLine t2).capturableAt)
          b2.boxCoords ≤
          List.countP (fun q => decide (q = cA) || decide (q = cB))
            b2.boxCoords := by
        apply List.countP_mono_left
        intro q hq hcapq
        rcases hcov2 q hq hcapq with h | h <;> simp [h]
      have step2 := countP_pair_le b2.boxCoords cA cB
      have step3 := List.nodup_iff_count_le_one.mp (boxCoords_nodup b2) cA
      have step4 := List.nodup_iff_count_le_one.mp (boxCoords_nodup b2) cB
      omega
    by_cases hex : t2.x % 2 = 1
    · apply haux (t2.x, t2.y + 1) (t2.x, t2.y - 1)
      · intro h
        simp only [Prod.mk.injEq] at h
        omega
      · intro q hq hcapq
        obtain ⟨hqx, hqy, _, _⟩ := (mem_boxCoords_iff b2 q).mp hq
        have hpin := adjacent_box_pin t2.x t2.y q.1 q.2 hqx hqy
          (hcov q hq hcapq)
        simp only [Prod.ext_iff]
        omega
    · apply haux (t2.x + 1, t2.y) (t2.x - 1, t2.y)
      · intro h
        simp only [Prod.mk.injEq] at h
        omega
      · intro q hq hcapq
        obtain ⟨hqx, hqy, _, _⟩ := (mem_boxCoords_iff b2 q).mp hq
        have hpin := adjacent_box_pin t2.x t2.y q.1 q.2 hqx hqy
          (hcov q hq hcapq)
        simp only [Prod.ext_iff]
        omega
  exact ⟨by simp [GameBoard.placeLine, hok], hcount, hmain, hbound⟩

/-- Witness for C1 on `demoBoard`: drawing the shared edge `(2, 1)`
completes the boxes `(1, 1)` and `(3, 1)` at once and the sweep
captures exactly two boxes. -/
theorem claim_c1_witness :
    demoBoard.newlyCapturedBoxes = [] ∧
    ((demoBoard.withLine demoDoubleTurn).applyCaptures).1 = 2 :=
  ⟨by decide,
   (claim_c1_double_capture demoBoard demoDoubleTurn (1, 1) (3, 1)
      (by decide) (by decide) (by decide) (by decide) (by decide)
      (by decide) (by decide) (by decide) (by decide) (by decide)
      (by decide)).2.1⟩

end DotsAndBoxes
